import Mathlib

/-!
Shallow embedding of the ptrack time-tracker core (src/main.go).

Instants (`time.Time`) are modelled as integers in a fixed scale; the Go zero
time value corresponds to `0`, and `t.IsZero()` to `t = 0`.  Durations
(`time.Duration`) are integers in the same scale; `a.Sub(b)` is `a - b`.
The CLI/IO layer (argument parsing, prompts, printing, persistence) is out of
scope per the spec; each command's effect on the in-memory `TrackerData`
snapshot is embedded as a pure function.  Floating-point percentage output of
the report is modelled in exact rational arithmetic.
-/

namespace Ptrack

/-- A start/stop interval; `End = 0` (Go: `End.IsZero()`) means the entry is
still open.  Mirrors `LogEntry` in src/main.go. -/
structure LogEntry where
  Start : Int
  End : Int
deriving DecidableEq, Repr

/-- Mirrors `Project` in src/main.go (`TotalTime` is a `time.Duration`). -/
structure Project where
  Name : String
  Logs : List LogEntry
  TotalTime : Int
deriving DecidableEq, Repr

/-- Mirrors `TrackerData` in src/main.go. -/
structure TrackerData where
  Projects : List Project
deriving DecidableEq, Repr

/-- The error signals of the spec's taxonomy that the core can raise
(`CorruptState`/`IOError` belong to the out-of-scope Store). -/
inductive Err where
  | NotFound
  | AlreadyActive
  | NotActive
deriving DecidableEq, Repr

/-- The activity test written inline throughout main.go
(`len(logs) > 0 && logs[len(logs)-1].End.IsZero()`, lines 179, 225, 276, 288). -/
def lastEntryOpen (logs : List LogEntry) : Bool :=
  !logs.isEmpty && (logs.getLastD ⟨0, 0⟩).End == 0

/-- A project is Active iff its last log entry is open (spec §4.1). -/
def isActive (p : Project) : Bool :=
  lastEntryOpen p.Logs

/-- Mirrors `projectExists` (main.go lines 92-99). -/
def projectExists (t : TrackerData) (name : String) : Bool :=
  t.Projects.any fun p => p.Name == name

/-- The first project with the given name, as found by the
`for i, p := range tracker.Projects { if p.Name == name { ... } }` loops. -/
def findProject (t : TrackerData) (name : String) : Option Project :=
  t.Projects.find? fun p => p.Name == name

/-- `create` (main.go lines 133-145): appends `Project{Name: name}` (zero-value
logs and total) unless the name exists, in which case nothing changes. -/
def create (t : TrackerData) (name : String) : TrackerData :=
  if projectExists t name then t
  else ⟨t.Projects ++ [{ Name := name, Logs := [], TotalTime := 0 }]⟩

/-- Loop body of `start` (main.go lines 176-189): find the first name match;
if its last entry is open report `AlreadyActive`, else append an open entry
(`LogEntry{Start: now}` has the zero `End`).  The returned list is the
(possibly mutated) projects slice; `none` means success. -/
def startProjects (name : String) (now : Int) : List Project → List Project × Option Err
  | [] => ([], some .NotFound)
  | p :: ps =>
    if p.Name == name then
      if lastEntryOpen p.Logs then
        (p :: ps, some .AlreadyActive)
      else
        ({ p with Logs := p.Logs ++ [{ Start := now, End := 0 }] } :: ps, none)
    else
      let r := startProjects name now ps
      (p :: r.1, r.2)

/-- `start` on the snapshot (main.go case "start"). -/
def start (t : TrackerData) (name : String) (now : Int) : TrackerData × Option Err :=
  (⟨(startProjects name now t.Projects).1⟩, (startProjects name now t.Projects).2)

/-- `tracker.Projects[i].Logs[len(logs)-1].End = end` (main.go line 206):
set the `End` field of the last entry. -/
def setLastEnd (now : Int) : List LogEntry → List LogEntry
  | [] => []
  | [e] => [{ e with End := now }]
  | e :: rest => e :: setLastEnd now rest

/-- Loop body of `stop` (main.go lines 197-211): find the first name match;
if there is no open last entry report `NotActive`, else close the last entry
at `now` and add `now - start` to the total. -/
def stopProjects (name : String) (now : Int) : List Project → List Project × Option Err
  | [] => ([], some .NotFound)
  | p :: ps =>
    if p.Name == name then
      if p.Logs.isEmpty || !((p.Logs.getLastD ⟨0, 0⟩).End == 0) then
        (p :: ps, some .NotActive)
      else
        ({ p with
            Logs := setLastEnd now p.Logs,
            TotalTime := p.TotalTime + (now - (p.Logs.getLastD ⟨0, 0⟩).Start) } :: ps, none)
    else
      let r := stopProjects name now ps
      (p :: r.1, r.2)

/-- `stop` on the snapshot (main.go case "stop"). -/
def stop (t : TrackerData) (name : String) (now : Int) : TrackerData × Option Err :=
  (⟨(stopProjects name now t.Projects).1⟩, (stopProjects name now t.Projects).2)

/-- Loop body of `delete` (main.go lines 147-168): remove the first name
match (the confirmation prompt is out-of-scope Command Layer). -/
def deleteProjects (name : String) : List Project → List Project
  | [] => []
  | p :: ps => if p.Name == name then ps else p :: deleteProjects name ps

/-- `delete` on the snapshot. -/
def delete (t : TrackerData) (name : String) : TrackerData :=
  ⟨deleteProjects name t.Projects⟩

/-- The projects listed by `status` (main.go lines 221-234): those whose last
entry is open. -/
def statusSessions (t : TrackerData) : List Project :=
  t.Projects.filter fun p => lastEntryOpen p.Logs

/-- Per-project time shown by `report` (main.go lines 286-290):
`t := p.TotalTime; if active { t += now - lastStart }`. -/
def effectiveTotal (p : Project) (now : Int) : Int :=
  p.TotalTime +
    (if lastEntryOpen p.Logs then now - (p.Logs.getLastD ⟨0, 0⟩).Start else 0)

/-- `totalAll` of `report` (main.go lines 273-280). -/
def grandTotal (t : TrackerData) (now : Int) : Int :=
  (t.Projects.map fun p => effectiveTotal p now).sum

/-- Percentage column of `report` (main.go lines 291-294), in exact rational
arithmetic: `0` unless `totalAll > 0`, else `t / totalAll * 100`. -/
def percentage (p : Project) (t : TrackerData) (now : Int) : ℚ :=
  if 0 < grandTotal t now then
    ((effectiveTotal p now : ℚ) / (grandTotal t now : ℚ)) * 100
  else 0

/-- Duration column of the `stats` view (main.go lines 254-258): live
`now - start` for an open entry, fixed `end - start` for a closed one. -/
def entryDuration (e : LogEntry) (now : Int) : Int :=
  if e.End == 0 then now - e.Start else e.End - e.Start

/-- Sum of `(end - start)` over the closed entries of a log list
(the right-hand side of the spec's `totalTime` invariant, §3). -/
def closedSum : List LogEntry → Int
  | [] => 0
  | e :: rest => (if e.End == 0 then 0 else e.End - e.Start) + closedSum rest

/-- The spec §3 invariant, per project: `totalTime` equals the closed sum. -/
def totalInvB (p : Project) : Bool :=
  p.TotalTime == closedSum p.Logs

/-- The spec §3 invariant over a whole snapshot. -/
def trackerInvB (t : TrackerData) : Bool :=
  t.Projects.all totalInvB

/-- All entries before the last one are closed: at most one entry is open and
an open entry can only be the last (spec §3). -/
def openOnlyLast : List LogEntry → Bool
  | [] => true
  | [_] => true
  | e :: rest => !(e.End == 0) && openOnlyLast rest

/-- Snapshots reachable from the empty store (first run loads an empty
`TrackerData`) through the four mutating commands; error outcomes return the
snapshot unchanged, so taking the first component covers them. -/
inductive Reachable : TrackerData → Prop
  | init : Reachable ⟨[]⟩
  | createStep (t : TrackerData) (name : String) :
      Reachable t → Reachable (create t name)
  | startStep (t : TrackerData) (name : String) (now : Int) :
      Reachable t → Reachable (start t name now).1
  | stopStep (t : TrackerData) (name : String) (now : Int) :
      Reachable t → Reachable (stop t name now).1
  | deleteStep (t : TrackerData) (name : String) :
      Reachable t → Reachable (delete t name)

example :
    start ⟨[{ Name := "a", Logs := [], TotalTime := 0 }]⟩ "a" 5
      = (⟨[{ Name := "a", Logs := [⟨5, 0⟩], TotalTime := 0 }]⟩, none) := by decide

example :
    stop ⟨[{ Name := "a", Logs := [⟨5, 0⟩], TotalTime := 0 }]⟩ "a" 9
      = (⟨[{ Name := "a", Logs := [⟨5, 9⟩], TotalTime := 4 }]⟩, none) := by decide

example :
    stop ⟨[{ Name := "a", Logs := [⟨5, 0⟩], TotalTime := 0 }]⟩ "a" 0
      = (⟨[{ Name := "a", Logs := [⟨5, 0⟩], TotalTime := -5 }]⟩, none) := by decide

example :
    start ⟨[{ Name := "a", Logs := [⟨5, 0⟩], TotalTime := 0 }]⟩ "a" 9
      = (⟨[{ Name := "a", Logs := [⟨5, 0⟩], TotalTime := 0 }]⟩, some .AlreadyActive) := by decide

example : stop ⟨[]⟩ "a" 9 = (⟨[]⟩, some .NotFound) := by decide

theorem lastEntryOpen_iff (logs : List LogEntry) :
    lastEntryOpen logs = true ↔ ∃ e, logs.getLast? = some e ∧ e.End = 0 := by
  cases hl : logs.getLast? with
  | none =>
    rw [List.getLast?_eq_none_iff] at hl
    subst hl
    simp [lastEntryOpen]
  | some e =>
    have hne : logs ≠ [] := by
      intro h; subst h; simp at hl
    constructor
    · intro h
      refine ⟨e, rfl, ?_⟩
      simp only [lastEntryOpen, List.getLastD_eq_getLast?, hl, Option.getD_some,
        Bool.and_eq_true, beq_iff_eq] at h
      exact h.2
    · rintro ⟨e', he', hz⟩
      have he : e = e' := Option.some_inj.mp he'
      subst he
      simp [lastEntryOpen, List.getLastD_eq_getLast?, hl, hz, hne]

theorem stop_guard_eq (logs : List LogEntry) :
    (logs.isEmpty || !((logs.getLastD ⟨0, 0⟩).End == 0)) = !lastEntryOpen logs := by
  cases h : logs.isEmpty <;> simp [lastEntryOpen, h]

theorem setLastEnd_eq (now : Int) :
    ∀ (logs : List LogEntry) (e : LogEntry), logs.getLast? = some e →
      setLastEnd now logs = logs.dropLast ++ [{ e with End := now }]
  | [], e, h => by simp at h
  | [x], e, h => by
    simp only [List.getLast?_singleton, Option.some_inj] at h
    subst h
    rfl
  | x :: y :: rest, e, h => by
    rw [List.getLast?_cons_cons] at h
    have ih := setLastEnd_eq now (y :: rest) e h
    simp [setLastEnd, ih]

theorem startProjects_snd (name : String) (now : Int) (ps : List Project) :
    (startProjects name now ps).2 =
      match ps.find? (fun q => q.Name == name) with
      | none => some Err.NotFound
      | some p => if lastEntryOpen p.Logs then some Err.AlreadyActive else none := by
  induction ps with
  | nil => rfl
  | cons p ps ih =>
    by_cases h : (p.Name == name) = true
    · by_cases h2 : lastEntryOpen p.Logs = true <;>
        simp [startProjects, List.find?_cons, h, h2]
    · simp only [startProjects, h, Bool.false_eq_true, if_false, List.find?_cons]
      simpa [h] using ih

theorem startProjects_fst_of_error (name : String) (now : Int) (ps : List Project)
    (e : Err) (h : (startProjects name now ps).2 = some e) :
    (startProjects name now ps).1 = ps := by
  induction ps with
  | nil => rfl
  | cons p ps ih =>
    by_cases hn : (p.Name == name) = true
    · by_cases h2 : lastEntryOpen p.Logs = true
      · simp [startProjects, hn, h2]
      · simp [startProjects, hn, h2] at h
    · simp only [startProjects, hn] at h ⊢
      simp only [Bool.false_eq_true, if_false] at h ⊢
      simpa using ih h

theorem startProjects_of_none (name : String) (now : Int) (ps : List Project)
    (h : (startProjects name now ps).2 = none) :
    ∃ ps₁ p ps₂, ps = ps₁ ++ p :: ps₂ ∧
      (∀ q ∈ ps₁, (q.Name == name) = false) ∧ (p.Name == name) = true ∧
      lastEntryOpen p.Logs = false ∧
      (startProjects name now ps).1 =
        ps₁ ++ { p with Logs := p.Logs ++ [{ Start := now, End := 0 }] } :: ps₂ := by
  induction ps with
  | nil => simp [startProjects] at h
  | cons p ps ih =>
    by_cases hn : (p.Name == name) = true
    · by_cases h2 : lastEntryOpen p.Logs = true
      · simp [startProjects, hn, h2] at h
      · exact ⟨[], p, ps, by simp, by simp, hn, by simpa using h2,
          by simp [startProjects, hn, h2]⟩
    · simp only [startProjects, hn, Bool.false_eq_true, if_false] at h ⊢
      obtain ⟨ps₁, q, ps₂, hps, hmiss, hq, hopen, hfst⟩ := ih h
      refine ⟨p :: ps₁, q, ps₂, by simp [hps], ?_, hq, hopen, by simp [hfst]⟩
      intro r hr
      rcases List.mem_cons.mp hr with rfl | hr'
      · simpa using hn
      · exact hmiss r hr'

theorem stopProjects_cons (name : String) (now : Int) (p : Project) (ps : List Project) :
    stopProjects name now (p :: ps) =
      if p.Name == name then
        if lastEntryOpen p.Logs then
          ({ p with
              Logs := setLastEnd now p.Logs,
              TotalTime := p.TotalTime + (now - (p.Logs.getLastD ⟨0, 0⟩).Start) } :: ps, none)
        else (p :: ps, some .NotActive)
      else
        (p :: (stopProjects name now ps).1, (stopProjects name now ps).2) := by
  have hg := stop_guard_eq p.Logs
  cases hn : (p.Name == name) with
  | false => simp [stopProjects, hn]
  | true =>
    cases h2 : lastEntryOpen p.Logs with
    | false =>
      have hgt : (p.Logs.isEmpty || !((p.Logs.getLastD ⟨0, 0⟩).End == 0)) = true := by
        rw [hg, h2]; rfl
      simp only [stopProjects, hn, hgt]
      simp
    | true =>
      have hgf : (p.Logs.isEmpty || !((p.Logs.getLastD ⟨0, 0⟩).End == 0)) = false := by
        rw [hg, h2]; rfl
      simp only [stopProjects, hn, hgf]
      simp

theorem stopProjects_snd (name : String) (now : Int) (ps : List Project) :
    (stopProjects name now ps).2 =
      match ps.find? (fun q => q.Name == name) with
      | none => some Err.NotFound
      | some p => if lastEntryOpen p.Logs then none else some Err.NotActive := by
  induction ps with
  | nil => rfl
  | cons p ps ih =>
    rw [stopProjects_cons]
    by_cases h : (p.Name == name) = true
    · by_cases h2 : lastEntryOpen p.Logs = true <;>
        simp [List.find?_cons, h, h2]
    · simp only [h, Bool.false_eq_true, if_false, List.find?_cons]
      simpa [h] using ih

theorem stopProjects_fst_of_error (name : String) (now : Int) (ps : List Project)
    (e : Err) (h : (stopProjects name now ps).2 = some e) :
    (stopProjects name now ps).1 = ps := by
  induction ps with
  | nil => rfl
  | cons p ps ih =>
    rw [stopProjects_cons] at h ⊢
    by_cases hn : (p.Name == name) = true
    · by_cases h2 : lastEntryOpen p.Logs = true
      · simp [hn, h2] at h
      · simp [hn, h2]
    · simp only [hn, Bool.false_eq_true, if_false] at h ⊢
      simpa using ih h

theorem stopProjects_of_none (name : String) (now : Int) (ps : List Project)
    (h : (stopProjects name now ps).2 = none) :
    ∃ ps₁ p ps₂, ps = ps₁ ++ p :: ps₂ ∧
      (∀ q ∈ ps₁, (q.Name == name) = false) ∧ (p.Name == name) = true ∧
      lastEntryOpen p.Logs = true ∧
      (stopProjects name now ps).1 =
        ps₁ ++ { p with
          Logs := setLastEnd now p.Logs,
          TotalTime := p.TotalTime + (now - (p.Logs.getLastD ⟨0, 0⟩).Start) } :: ps₂ := by
  induction ps with
  | nil => simp [stopProjects] at h
  | cons p ps ih =>
    rw [stopProjects_cons] at h
    by_cases hn : (p.Name == name) = true
    · by_cases h2 : lastEntryOpen p.Logs = true
      · exact ⟨[], p, ps, by simp, by simp, hn, h2,
          by rw [stopProjects_cons]; simp [hn, h2]⟩
      · simp [hn, h2] at h
    · simp only [hn, Bool.false_eq_true, if_false] at h
      obtain ⟨ps₁, q, ps₂, hps, hmiss, hq, hopen, hfst⟩ := ih h
      refine ⟨p :: ps₁, q, ps₂, by simp [hps], ?_, hq, hopen, ?_⟩
      · intro r hr
        rcases List.mem_cons.mp hr with rfl | hr'
        · simpa using hn
        · exact hmiss r hr'
      · rw [stopProjects_cons]
        simp only [hn, Bool.false_eq_true, if_false]
        simp [hfst]

theorem find?_shape (name : String) (ps₁ ps₂ : List Project) (p : Project)
    (h₁ : ∀ q ∈ ps₁, (q.Name == name) = false) (h₂ : (p.Name == name) = true) :
    (ps₁ ++ p :: ps₂).find? (fun q => q.Name == name) = some p := by
  induction ps₁ with
  | nil => simp [List.find?_cons, h₂]
  | cons q qs ih =>
    have hq : (q.Name == name) = false := h₁ q (by simp)
    simp only [List.cons_append, List.find?_cons, hq]
    exact ih fun r hr => h₁ r (by simp [hr])

/-- Claim C4: `start` on an Active project signals `AlreadyActive`, appends no
new entry and leaves the whole snapshot (in particular `totalTime`) unchanged;
`start` on an absent name signals `NotFound` with the snapshot unchanged. -/
theorem start_error_cases (t : TrackerData) (nameA nameM : String) (now : Int)
    (p : Project) (hfind : findProject t nameA = some p) (hact : isActive p = true)
    (hmiss : findProject t nameM = none) :
    start t nameA now = (t, some Err.AlreadyActive) ∧
    start t nameM now = (t, some Err.NotFound) := by
  have hf : t.Projects.find? (fun q => q.Name == nameA) = some p := hfind
  have hm : t.Projects.find? (fun q => q.Name == nameM) = none := hmiss
  have hs1 : (startProjects nameA now t.Projects).2 = some Err.AlreadyActive := by
    rw [startProjects_snd, hf]
    simp only [isActive] at hact
    simp [hact]
  have hs2 : (startProjects nameM now t.Projects).2 = some Err.NotFound := by
    rw [startProjects_snd, hm]
  have h1 := startProjects_fst_of_error nameA now t.Projects _ hs1
  have h2 := startProjects_fst_of_error nameM now t.Projects _ hs2
  constructor
  · show (⟨(startProjects nameA now t.Projects).1⟩, (startProjects nameA now t.Projects).2)
      = (t, some Err.AlreadyActive)
    rw [h1, hs1]
  · show (⟨(startProjects nameM now t.Projects).1⟩, (startProjects nameM now t.Projects).2)
      = (t, some Err.NotFound)
    rw [h2, hs2]

theorem start_error_cases_witness :
    start ⟨[⟨"a", [⟨5, 0⟩], 0⟩]⟩ "a" 9 = (⟨[⟨"a", [⟨5, 0⟩], 0⟩]⟩, some Err.AlreadyActive) ∧
    start ⟨[⟨"a", [⟨5, 0⟩], 0⟩]⟩ "b" 9 = (⟨[⟨"a", [⟨5, 0⟩], 0⟩]⟩, some Err.NotFound) :=
  start_error_cases ⟨[⟨"a", [⟨5, 0⟩], 0⟩]⟩ "a" "b" 9 ⟨"a", [⟨5, 0⟩], 0⟩
    (by decide) (by decide) (by decide)

/-- Claim C5: `stop` on a project that is not Active signals `NotActive` and
leaves `totalTime` and `logs` (indeed the whole snapshot) unchanged; `stop` on
an absent name signals `NotFound` with the snapshot unchanged. -/
theorem stop_error_cases (t : TrackerData) (nameI nameM : String) (now : Int)
    (p : Project) (hfind : findProject t nameI = some p) (hidle : isActive p = false)
    (hmiss : findProject t nameM = none) :
    stop t nameI now = (t, some Err.NotActive) ∧
    stop t nameM now = (t, some Err.NotFound) := by
  have hf : t.Projects.find? (fun q => q.Name == nameI) = some p := hfind
  have hm : t.Projects.find? (fun q => q.Name == nameM) = none := hmiss
  have hs1 : (stopProjects nameI now t.Projects).2 = some Err.NotActive := by
    rw [stopProjects_snd, hf]
    simp only [isActive] at hidle
    simp [hidle]
  have hs2 : (stopProjects nameM now t.Projects).2 = some Err.NotFound := by
    rw [stopProjects_snd, hm]
  have h1 := stopProjects_fst_of_error nameI now t.Projects _ hs1
  have h2 := stopProjects_fst_of_error nameM now t.Projects _ hs2
  constructor
  · show (⟨(stopProjects nameI now t.Projects).1⟩, (stopProjects nameI now t.Projects).2)
      = (t, some Err.NotActive)
    rw [h1, hs1]
  · show (⟨(stopProjects nameM now t.Projects).1⟩, (stopProjects nameM now t.Projects).2)
      = (t, some Err.NotFound)
    rw [h2, hs2]

theorem stop_error_cases_witness :
    stop ⟨[⟨"a", [⟨5, 9⟩], 4⟩]⟩ "a" 11 = (⟨[⟨"a", [⟨5, 9⟩], 4⟩]⟩, some Err.NotActive) ∧
    stop ⟨[⟨"a", [⟨5, 9⟩], 4⟩]⟩ "b" 11 = (⟨[⟨"a", [⟨5, 9⟩], 4⟩]⟩, some Err.NotFound) :=
  stop_error_cases ⟨[⟨"a", [⟨5, 9⟩], 4⟩]⟩ "a" "b" 11 ⟨"a", [⟨5, 9⟩], 4⟩
    (by decide) (by decide) (by decide)

/-- Claim C3: a project is Active iff its log sequence is non-empty and the
last entry's end is absent; exactly one of Idle/Active holds; and start, stop,
status and report all decide activity by this same predicate. -/
theorem isActive_characterises (p : Project) (t : TrackerData) (name : String)
    (now : Int) :
    (isActive p = true ↔ p.Logs ≠ [] ∧ ∃ e, p.Logs.getLast? = some e ∧ e.End = 0) ∧
    (xor (isActive p) (!isActive p)) = true ∧
    ((start t name now).2 = some Err.AlreadyActive ↔
      ∃ q, findProject t name = some q ∧ isActive q = true) ∧
    ((stop t name now).2 = some Err.NotActive ↔
      ∃ q, findProject t name = some q ∧ isActive q = false) ∧
    (p ∈ statusSessions t ↔ p ∈ t.Projects ∧ isActive p = true) ∧
    (effectiveTotal p now =
      if isActive p then p.TotalTime + (now - (p.Logs.getLastD ⟨0, 0⟩).Start)
      else p.TotalTime) := by
  refine ⟨?_, ?_, ?_, ?_, ?_, ?_⟩
  · rw [show isActive p = lastEntryOpen p.Logs from rfl, lastEntryOpen_iff]
    constructor
    · rintro ⟨e, he, hz⟩
      refine ⟨?_, e, he, hz⟩
      intro hnil
      rw [hnil] at he
      simp at he
    · rintro ⟨_, e, he, hz⟩
      exact ⟨e, he, hz⟩
  · cases h : isActive p <;> simp
  · show (startProjects name now t.Projects).2 = some Err.AlreadyActive ↔ _
    rw [startProjects_snd]
    cases hf : t.Projects.find? (fun q => q.Name == name) with
    | none => simp [findProject, hf]
    | some q =>
      by_cases hq : lastEntryOpen q.Logs = true <;>
        simp [findProject, hf, isActive, hq]
  · show (stopProjects name now t.Projects).2 = some Err.NotActive ↔ _
    rw [stopProjects_snd]
    cases hf : t.Projects.find? (fun q => q.Name == name) with
    | none => simp [findProject, hf]
    | some q =>
      by_cases hq : lastEntryOpen q.Logs = true <;>
        simp [findProject, hf, isActive, hq]
  · simp [statusSessions, List.mem_filter, isActive]
  · by_cases h : lastEntryOpen p.Logs = true <;>
      simp [effectiveTotal, isActive, h]

/-- Claim C1 counterexample: stopping at the zero instant succeeds (the open
entry's end is set to `now = 0` and the negative duration is added), yet the
project is still classified Active afterwards, not Idle. -/
theorem stop_zero_cex :
    (stop ⟨[⟨"a", [⟨5, 0⟩], 0⟩]⟩ "a" 0).2 = none ∧
    findProject (stop ⟨[⟨"a", [⟨5, 0⟩], 0⟩]⟩ "a" 0).1 "a" = some ⟨"a", [⟨5, 0⟩], -5⟩ ∧
    isActive ⟨"a", [⟨5, 0⟩], -5⟩ = true := by decide

/-- Claim C1 (amended): `stop(project, now)` on an Active project sets
`end = now` on the last open LogEntry and adds `now - start` to `totalTime`,
even when `now` is before the entry's start (negative duration recorded as
given); the project is left Idle provided `now` is not the zero instant
(a zero `end` re-marks the entry as open). -/
theorem stop_active_spec (t : TrackerData) (name : String) (now : Int)
    (p : Project) (hfind : findProject t name = some p) (hact : isActive p = true) :
    ∃ e t' p', p.Logs.getLast? = some e ∧ e.End = 0 ∧
      stop t name now = (t', none) ∧ findProject t' name = some p' ∧
      p'.Logs = p.Logs.dropLast ++ [{ e with End := now }] ∧
      p'.TotalTime = p.TotalTime + (now - e.Start) ∧
      (now ≠ 0 → isActive p' = false) := by
  obtain ⟨e, he, hz⟩ := (lastEntryOpen_iff p.Logs).mp hact
  have hf : t.Projects.find? (fun q => q.Name == name) = some p := hfind
  have hsnd : (stopProjects name now t.Projects).2 = none := by
    rw [stopProjects_snd, hf]
    simp [isActive] at hact
    simp [hact]
  obtain ⟨ps₁, q, ps₂, hps, hmiss, hq, hopen, hfst⟩ :=
    stopProjects_of_none name now t.Projects hsnd
  have hqp : q = p := by
    have := find?_shape name ps₁ ps₂ q hmiss hq
    rw [← hps, hf] at this
    exact (Option.some_inj.mp this).symm
  subst hqp
  set p' : Project :=
    { q with
      Logs := setLastEnd now q.Logs,
      TotalTime := q.TotalTime + (now - (q.Logs.getLastD ⟨0, 0⟩).Start) } with hp'
  have hlogs : p'.Logs = q.Logs.dropLast ++ [{ e with End := now }] := by
    simpa [hp'] using setLastEnd_eq now q.Logs e he
  refine ⟨e, TrackerData.mk (ps₁ ++ p' :: ps₂), p', he, hz, ?_, ?_, hlogs,
    by simp [hp', List.getLastD_eq_getLast?, he], ?_⟩
  · show (TrackerData.mk (stopProjects name now t.Projects).1,
        (stopProjects name now t.Projects).2)
      = (TrackerData.mk (ps₁ ++ p' :: ps₂), none)
    rw [hsnd, hfst]
  · show (ps₁ ++ p' :: ps₂).find? (fun r => r.Name == name) = some p'
    exact find?_shape name ps₁ ps₂ p' hmiss hq
  · intro hnz
    cases ha : isActive p' with
    | false => rfl
    | true =>
      obtain ⟨e', he', hz'⟩ := (lastEntryOpen_iff p'.Logs).mp ha
      rw [hlogs, List.getLast?_concat] at he'
      cases Option.some_inj.mp he'
      exact absurd hz' (by simpa using hnz)

theorem stop_active_spec_witness :
    ∃ e t' p', [LogEntry.mk 5 0].getLast? = some e ∧ e.End = 0 ∧
      stop ⟨[⟨"a", [⟨5, 0⟩], 2⟩]⟩ "a" 3 = (t', none) ∧ findProject t' "a" = some p' ∧
      p'.Logs = [LogEntry.mk 5 0].dropLast ++ [{ e with End := 3 }] ∧
      p'.TotalTime = 2 + (3 - e.Start) ∧
      ((3 : Int) ≠ 0 → isActive p' = false) :=
  stop_active_spec ⟨[⟨"a", [⟨5, 0⟩], 2⟩]⟩ "a" 3 ⟨"a", [⟨5, 0⟩], 2⟩ (by decide) (by decide)

/-- Claim C9: a successful `start` or `stop` mutates only the first project
whose name matches: the projects before it (none of which match) and after it
are unchanged and keep their order, and within the mutated project all log
entries other than the appended (start) or last (stop) one are unchanged, as
are its name and (for start) its total. -/
theorem frame_start_stop (t₁ t₂ : TrackerData) (n₁ n₂ : String) (c₁ c₂ : Int)
    (h₁ : (start t₁ n₁ c₁).2 = none) (h₂ : (stop t₂ n₂ c₂).2 = none) :
    (∃ ps₁ p ps₂, t₁.Projects = ps₁ ++ p :: ps₂ ∧
      (∀ q ∈ ps₁, q.Name ≠ n₁) ∧ p.Name = n₁ ∧
      (start t₁ n₁ c₁).1.Projects =
        ps₁ ++ { p with Logs := p.Logs ++ [{ Start := c₁, End := 0 }] } :: ps₂) ∧
    (∃ ps₁ p ps₂ e, t₂.Projects = ps₁ ++ p :: ps₂ ∧
      (∀ q ∈ ps₁, q.Name ≠ n₂) ∧ p.Name = n₂ ∧ p.Logs.getLast? = some e ∧
      (stop t₂ n₂ c₂).1.Projects =
        ps₁ ++ { p with
          Logs := p.Logs.dropLast ++ [{ e with End := c₂ }],
          TotalTime := p.TotalTime + (c₂ - e.Start) } :: ps₂) := by
  constructor
  · obtain ⟨ps₁, p, ps₂, hps, hmiss, hp, hopen, hfst⟩ :=
      startProjects_of_none n₁ c₁ t₁.Projects h₁
    exact ⟨ps₁, p, ps₂, hps,
      fun q hq => by simpa using hmiss q hq, by simpa using hp, hfst⟩
  · obtain ⟨ps₁, p, ps₂, hps, hmiss, hp, hopen, hfst⟩ :=
      stopProjects_of_none n₂ c₂ t₂.Projects h₂
    obtain ⟨e, he, hz⟩ := (lastEntryOpen_iff p.Logs).mp hopen
    refine ⟨ps₁, p, ps₂, e, hps,
      fun q hq => by simpa using hmiss q hq, by simpa using hp, he, ?_⟩
    show (stopProjects n₂ c₂ t₂.Projects).1 = _
    rw [hfst, setLastEnd_eq c₂ p.Logs e he, List.getLastD_eq_getLast?, he]
    rfl

theorem frame_start_stop_witness :
    (∃ ps₁ p ps₂, [Project.mk "a" [] 0] = ps₁ ++ p :: ps₂ ∧
      (∀ q ∈ ps₁, q.Name ≠ "a") ∧ p.Name = "a" ∧
      (start ⟨[⟨"a", [], 0⟩]⟩ "a" 5).1.Projects =
        ps₁ ++ { p with Logs := p.Logs ++ [{ Start := 5, End := 0 }] } :: ps₂) ∧
    (∃ ps₁ p ps₂ e, [Project.mk "b" [⟨2, 0⟩] 0] = ps₁ ++ p :: ps₂ ∧
      (∀ q ∈ ps₁, q.Name ≠ "b") ∧ p.Name = "b" ∧ p.Logs.getLast? = some e ∧
      (stop ⟨[⟨"b", [⟨2, 0⟩], 0⟩]⟩ "b" 7).1.Projects =
        ps₁ ++ { p with
          Logs := p.Logs.dropLast ++ [{ e with End := 7 }],
          TotalTime := p.TotalTime + (7 - e.Start) } :: ps₂) :=
  frame_start_stop ⟨[⟨"a", [], 0⟩]⟩ ⟨[⟨"b", [⟨2, 0⟩], 0⟩]⟩ "a" "b" 5 7
    (by decide) (by decide)

/-- Claim C10: an open entry's absent end is encoded as the zero time value
and every operation classifies an entry as open exactly when its end is zero
(the stats duration is live iff `End = 0`); hence after a `stop` at the zero
instant the resulting entry is indistinguishable from an open one — the
project is still treated as Active by start (AlreadyActive), stop (would
close again), status (listed) and report (live addition). -/
theorem zero_end_is_open (now : Int) (t t' : TrackerData) (name : String)
    (p' : Project) (hstop : stop t name 0 = (t', none))
    (hfind : findProject t' name = some p') :
    (∀ e : LogEntry,
      entryDuration e now = if e.End == 0 then now - e.Start else e.End - e.Start) ∧
    isActive p' = true ∧
    start t' name now = (t', some Err.AlreadyActive) ∧
    (stop t' name now).2 = none ∧
    p' ∈ statusSessions t' ∧
    effectiveTotal p' now = p'.TotalTime + (now - (p'.Logs.getLastD ⟨0, 0⟩).Start) := by
  have hsnd : (stopProjects name 0 t.Projects).2 = none := congrArg Prod.snd hstop
  have ht' : t' = TrackerData.mk (stopProjects name 0 t.Projects).1 :=
    (congrArg Prod.fst hstop).symm
  obtain ⟨ps₁, q, ps₂, hps, hmiss, hq, hopen, hfst⟩ :=
    stopProjects_of_none name 0 t.Projects hsnd
  obtain ⟨e, he, hz⟩ := (lastEntryOpen_iff q.Logs).mp hopen
  set q' : Project :=
    { q with
      Logs := setLastEnd 0 q.Logs,
      TotalTime := q.TotalTime + (0 - (q.Logs.getLastD ⟨0, 0⟩).Start) } with hq'
  have htp : t'.Projects = ps₁ ++ q' :: ps₂ := by rw [ht', hfst]
  have hfq : findProject t' name = some q' := by
    show t'.Projects.find? (fun r => r.Name == name) = some q'
    rw [htp]
    exact find?_shape name ps₁ ps₂ q' hmiss hq
  have hpq : q' = p' := Option.some_inj.mp (hfq.symm.trans hfind)
  have hlogs : p'.Logs = q.Logs.dropLast ++ [{ e with End := 0 }] := by
    rw [← hpq]
    simpa [hq'] using setLastEnd_eq 0 q.Logs e he
  rw [hpq] at htp hfq
  have hact : isActive p' = true := by
    rw [show isActive p' = lastEntryOpen p'.Logs from rfl, lastEntryOpen_iff]
    exact ⟨{ e with End := 0 }, by rw [hlogs, List.getLast?_concat], rfl⟩
  have hf' : t'.Projects.find? (fun r => r.Name == name) = some p' := hfq
  refine ⟨fun e => rfl, hact, ?_, ?_, ?_, ?_⟩
  · have hs : (startProjects name now t'.Projects).2 = some Err.AlreadyActive := by
      rw [startProjects_snd, hf']
      simp only [isActive] at hact
      simp [hact]
    have hfst' := startProjects_fst_of_error name now t'.Projects _ hs
    show (TrackerData.mk (startProjects name now t'.Projects).1,
        (startProjects name now t'.Projects).2) = (t', some Err.AlreadyActive)
    rw [hfst', hs]
  · show (stopProjects name now t'.Projects).2 = none
    rw [stopProjects_snd, hf']
    simp only [isActive] at hact
    simp [hact]
  · refine List.mem_filter.mpr ⟨?_, hact⟩
    rw [htp]
    simp
  · simp only [isActive] at hact
    simp [effectiveTotal, hact]

theorem zero_end_is_open_witness :
    (∀ e : LogEntry,
      entryDuration e 9 = if e.End == 0 then 9 - e.Start else e.End - e.Start) ∧
    isActive ⟨"a", [⟨5, 0⟩], -5⟩ = true ∧
    start ⟨[⟨"a", [⟨5, 0⟩], -5⟩]⟩ "a" 9 = (⟨[⟨"a", [⟨5, 0⟩], -5⟩]⟩, some Err.AlreadyActive) ∧
    (stop ⟨[⟨"a", [⟨5, 0⟩], -5⟩]⟩ "a" 9).2 = none ∧
    Project.mk "a" [⟨5, 0⟩] (-5) ∈ statusSessions ⟨[⟨"a", [⟨5, 0⟩], -5⟩]⟩ ∧
    effectiveTotal ⟨"a", [⟨5, 0⟩], -5⟩ 9 =
      (Project.mk "a" [⟨5, 0⟩] (-5)).TotalTime +
        (9 - ((Project.mk "a" [⟨5, 0⟩] (-5)).Logs.getLastD ⟨0, 0⟩).Start) :=
  zero_end_is_open 9 ⟨[⟨"a", [⟨5, 0⟩], 0⟩]⟩ ⟨[⟨"a", [⟨5, 0⟩], -5⟩]⟩ "a"
    ⟨"a", [⟨5, 0⟩], -5⟩ (by decide) (by decide)

theorem closedSum_append (l₁ l₂ : List LogEntry) :
    closedSum (l₁ ++ l₂) = closedSum l₁ + closedSum l₂ := by
  induction l₁ with
  | nil => simp [closedSum]
  | cons e l ih => simp [closedSum, ih]; ring

theorem closedSum_setLastEnd (now : Int) (hnz : ¬now = 0) (logs : List LogEntry)
    (e : LogEntry) (he : logs.getLast? = some e) (hz : e.End = 0) :
    closedSum (setLastEnd now logs) = closedSum logs + (now - e.Start) := by
  induction logs with
  | nil => simp at he
  | cons x rest ih =>
    cases rest with
    | nil =>
      simp only [List.getLast?_singleton, Option.some_inj] at he
      subst he
      simp [setLastEnd, closedSum, hz, hnz]
    | cons y rest' =>
      rw [List.getLast?_cons_cons] at he
      have ihr := ih he
      simp only [setLastEnd, closedSum, ihr]
      ring

theorem deleteProjects_subset (name : String) (ps : List Project) :
    ∀ q ∈ deleteProjects name ps, q ∈ ps := by
  induction ps with
  | nil => simp [deleteProjects]
  | cons p ps ih =>
    intro q hq
    by_cases h : (p.Name == name) = true
    · simp only [deleteProjects, h, if_true] at hq
      exact List.mem_cons_of_mem _ hq
    · simp only [deleteProjects, h, Bool.false_eq_true, if_false] at hq
      rcases List.mem_cons.mp hq with rfl | hq'
      · exact List.mem_cons_self _ _
      · exact List.mem_cons_of_mem _ (ih q hq')

/-- Claim C2 counterexample: a snapshot satisfying the `totalTime = closed sum`
invariant, on which a successful `stop` at the zero instant breaks it (the
entry stays classified open, so the closed sum gains nothing while `totalTime`
gains the negative duration). -/
theorem totalTime_invariant_cex :
    trackerInvB ⟨[⟨"a", [⟨5, 0⟩], 0⟩]⟩ = true ∧
    (stop ⟨[⟨"a", [⟨5, 0⟩], 0⟩]⟩ "a" 0).2 = none ∧
    trackerInvB (stop ⟨[⟨"a", [⟨5, 0⟩], 0⟩]⟩ "a" 0).1 = false := by decide

/-- Claim C2 (amended): `totalTime` equals the sum of `(end - start)` over the
closed entries of `logs`, and the operations preserve this equality — `create`
initialises both sides to zero, `start` and error outcomes change neither
side, `delete` removes whole projects, and a successful `stop` adds the same
duration to both sides provided the stop instant is not the zero time value
(a zero end would leave the entry classified open). -/
theorem totalTime_invariant (t : TrackerData) (name : String) (now : Int)
    (hinv : trackerInvB t = true) :
    trackerInvB (create t name) = true ∧
    (projectExists t name = false →
      findProject (create t name) name = some ⟨name, [], 0⟩) ∧
    trackerInvB (start t name now).1 = true ∧
    (now ≠ 0 → trackerInvB (stop t name now).1 = true) ∧
    trackerInvB (delete t name) = true := by
  rw [trackerInvB, List.all_eq_true] at hinv
  refine ⟨?_, ?_, ?_, ?_, ?_⟩
  · by_cases h : projectExists t name = true
    · simp only [create, h, if_true]
      rw [trackerInvB, List.all_eq_true]
      exact hinv
    · have h' : projectExists t name = false := by simpa using h
      simp only [create, h', Bool.false_eq_true, if_false]
      rw [trackerInvB, List.all_eq_true]
      intro q hq
      rcases List.mem_append.mp hq with hq' | hq'
      · exact hinv q hq'
      · rcases List.mem_singleton.mp hq' with rfl
        rfl
  · intro hmiss
    have hall : ∀ q ∈ t.Projects, (q.Name == name) = false := by
      simp only [projectExists, List.any_eq_false] at hmiss
      intro q hq
      simpa using hmiss q hq
    simp only [create, hmiss, Bool.false_eq_true, if_false]
    show (t.Projects ++ [Project.mk name [] 0]).find? (fun q => q.Name == name)
      = some (Project.mk name [] 0)
    have := find?_shape name t.Projects [] (Project.mk name [] 0) hall (by simp)
    simpa using this
  · cases hsnd : (startProjects name now t.Projects).2 with
    | some e =>
      have hfst := startProjects_fst_of_error name now t.Projects e hsnd
      show (startProjects name now t.Projects).1.all totalInvB = true
      rw [hfst, List.all_eq_true]
      exact hinv
    | none =>
      obtain ⟨ps₁, p, ps₂, hps, hmiss, hp, hopen, hfst⟩ :=
        startProjects_of_none name now t.Projects hsnd
      show (startProjects name now t.Projects).1.all totalInvB = true
      rw [hfst, List.all_eq_true]
      intro q hq
      rcases List.mem_append.mp hq with hq' | hq'
      · exact hinv q (by rw [hps]; exact List.mem_append_left _ hq')
      · rcases List.mem_cons.mp hq' with rfl | hq''
        · have hpinv := hinv p (by rw [hps]; exact List.mem_append_right _ (List.mem_cons_self _ _))
          rw [totalInvB, beq_iff_eq] at hpinv ⊢
          simp [closedSum_append, closedSum, hpinv]
        · exact hinv q (by rw [hps]; exact List.mem_append_right _ (List.mem_cons_of_mem _ hq''))
  · intro hnz
    cases hsnd : (stopProjects name now t.Projects).2 with
    | some e =>
      have hfst := stopProjects_fst_of_error name now t.Projects e hsnd
      show (stopProjects name now t.Projects).1.all totalInvB = true
      rw [hfst, List.all_eq_true]
      exact hinv
    | none =>
      obtain ⟨ps₁, p, ps₂, hps, hmiss, hp, hopen, hfst⟩ :=
        stopProjects_of_none name now t.Projects hsnd
      obtain ⟨e, he, hz⟩ := (lastEntryOpen_iff p.Logs).mp hopen
      show (stopProjects name now t.Projects).1.all totalInvB = true
      rw [hfst, List.all_eq_true]
      intro q hq
      rcases List.mem_append.mp hq with hq' | hq'
      · exact hinv q (by rw [hps]; exact List.mem_append_left _ hq')
      · rcases List.mem_cons.mp hq' with rfl | hq''
        · have hpinv := hinv p (by rw [hps]; exact List.mem_append_right _ (List.mem_cons_self _ _))
          rw [totalInvB, beq_iff_eq] at hpinv ⊢
          have hcs := closedSum_setLastEnd now hnz p.Logs e he hz
          show p.TotalTime + (now - (p.Logs.getLastD ⟨0, 0⟩).Start)
            = closedSum (setLastEnd now p.Logs)
          rw [hcs, List.getLastD_eq_getLast?, he, hpinv]
          rfl
        · exact hinv q (by rw [hps]; exact List.mem_append_right _ (List.mem_cons_of_mem _ hq''))
  · rw [trackerInvB, List.all_eq_true]
    intro q hq
    exact hinv q (deleteProjects_subset name t.Projects q hq)

theorem totalTime_invariant_witness :
    trackerInvB (create ⟨[⟨"a", [⟨5, 0⟩], 0⟩]⟩ "b") = true ∧
    (projectExists ⟨[⟨"a", [⟨5, 0⟩], 0⟩]⟩ "b" = false →
      findProject (create ⟨[⟨"a", [⟨5, 0⟩], 0⟩]⟩ "b") "b" = some ⟨"b", [], 0⟩) ∧
    trackerInvB (start ⟨[⟨"a", [⟨5, 0⟩], 0⟩]⟩ "b" 7).1 = true ∧
    ((7 : Int) ≠ 0 → trackerInvB (stop ⟨[⟨"a", [⟨5, 0⟩], 0⟩]⟩ "b" 7).1 = true) ∧
    trackerInvB (delete ⟨[⟨"a", [⟨5, 0⟩], 0⟩]⟩ "b") = true :=
  totalTime_invariant ⟨[⟨"a", [⟨5, 0⟩], 0⟩]⟩ "b" 7 (by decide)

theorem lastEntryOpen_cons_cons (x y : LogEntry) (rest : List LogEntry) :
    lastEntryOpen (x :: y :: rest) = lastEntryOpen (y :: rest) := by
  simp [lastEntryOpen, List.getLastD_eq_getLast?, List.getLast?_cons_cons]

theorem openOnlyLast_append (logs : List LogEntry) (e : LogEntry)
    (h : openOnlyLast logs = true) (hclosed : lastEntryOpen logs = false) :
    openOnlyLast (logs ++ [e]) = true := by
  induction logs with
  | nil => rfl
  | cons x rest ih =>
    cases rest with
    | nil =>
      have hx : (x.End == 0) = false := by
        simpa [lastEntryOpen] using hclosed
      simp [openOnlyLast, hx]
    | cons y rest' =>
      have h1 : (x.End == 0) = false ∧ openOnlyLast (y :: rest') = true := by
        simpa [openOnlyLast, Bool.and_eq_true] using h
      have hc' : lastEntryOpen (y :: rest') = false := by
        rw [← lastEntryOpen_cons_cons x]
        exact hclosed
      have := ih h1.2 hc'
      simp only [List.cons_append] at this ⊢
      simp [openOnlyLast, h1.1]
      simpa [openOnlyLast] using this

theorem openOnlyLast_setLastEnd (now : Int) (logs : List LogEntry)
    (h : openOnlyLast logs = true) :
    openOnlyLast (setLastEnd now logs) = true := by
  induction logs with
  | nil => rfl
  | cons x rest ih =>
    cases rest with
    | nil => rfl
    | cons y rest' =>
      have h1 : (x.End == 0) = false ∧ openOnlyLast (y :: rest') = true := by
        simpa [openOnlyLast, Bool.and_eq_true] using h
      have ih' := ih h1.2
      show openOnlyLast (x :: setLastEnd now (y :: rest')) = true
      cases rest' with
      | nil => simp [setLastEnd, openOnlyLast, h1.1]
      | cons r rs =>
        show openOnlyLast (x :: y :: setLastEnd now (r :: rs)) = true
        rw [show openOnlyLast (x :: y :: setLastEnd now (r :: rs))
            = (!(x.End == 0) && openOnlyLast (y :: setLastEnd now (r :: rs))) from rfl]
        rw [h1.1]
        simpa [setLastEnd] using ih'

theorem openOnlyLast_filter_dropLast (logs : List LogEntry)
    (h : openOnlyLast logs = true) :
    (logs.filter fun e => e.End == 0).length ≤ 1 ∧
    logs.dropLast.all (fun e => !(e.End == 0)) = true := by
  induction logs with
  | nil => simp
  | cons x rest ih =>
    cases rest with
    | nil =>
      constructor
      · have := List.length_filter_le (fun e => e.End == 0) [x]
        simpa using this
      · simp
    | cons y rest' =>
      have h1 : (x.End == 0) = false ∧ openOnlyLast (y :: rest') = true := by
        simpa [openOnlyLast, Bool.and_eq_true] using h
      obtain ⟨ih1, ih2⟩ := ih h1.2
      constructor
      · rw [List.filter_cons_of_neg (by simp [h1.1])]
        exact ih1
      · rw [show (x :: y :: rest').dropLast = x :: (y :: rest').dropLast from rfl]
        rw [List.all_cons, h1.1]
        simpa using ih2

/-- Claim C6: in every reachable snapshot, each project has at most one open
log entry, and all entries before the last are closed (an open entry can only
be the last); start appends an open entry only when the last is closed or no
entries exist, and stop only rewrites the last entry. -/
theorem at_most_one_open (t : TrackerData) (p : Project)
    (hr : Reachable t) (hp : p ∈ t.Projects) :
    (p.Logs.filter fun e => e.End == 0).length ≤ 1 ∧
    p.Logs.dropLast.all (fun e => !(e.End == 0)) = true := by
  suffices h : ∀ q ∈ t.Projects, openOnlyLast q.Logs = true by
    exact openOnlyLast_filter_dropLast _ (h p hp)
  clear hp
  induction hr with
  | init => simp
  | createStep t name ht ih =>
    intro q hq
    by_cases h : projectExists t name = true
    · simp only [create, h, if_true] at hq
      exact ih q hq
    · have h' : projectExists t name = false := by simpa using h
      simp only [create, h', Bool.false_eq_true, if_false] at hq
      rcases List.mem_append.mp hq with hq' | hq'
      · exact ih q hq'
      · rcases List.mem_singleton.mp hq' with rfl
        rfl
  | startStep t name now ht ih =>
    intro q hq
    have hq' : q ∈ (startProjects name now t.Projects).1 := hq
    cases hsnd : (startProjects name now t.Projects).2 with
    | some e =>
      rw [startProjects_fst_of_error name now t.Projects e hsnd] at hq'
      exact ih q hq'
    | none =>
      obtain ⟨ps₁, p', ps₂, hps, hmiss, hp', hopen, hfst⟩ :=
        startProjects_of_none name now t.Projects hsnd
      rw [hfst] at hq'
      rcases List.mem_append.mp hq' with hq'' | hq''
      · exact ih q (by rw [hps]; exact List.mem_append_left _ hq'')
      · rcases List.mem_cons.mp hq'' with rfl | hq'''
        · have hoo := ih p' (by rw [hps]; exact List.mem_append_right _ (List.mem_cons_self _ _))
          exact openOnlyLast_append p'.Logs _ hoo hopen
        · exact ih q (by rw [hps]; exact List.mem_append_right _ (List.mem_cons_of_mem _ hq'''))
  | stopStep t name now ht ih =>
    intro q hq
    have hq' : q ∈ (stopProjects name now t.Projects).1 := hq
    cases hsnd : (stopProjects name now t.Projects).2 with
    | some e =>
      rw [stopProjects_fst_of_error name now t.Projects e hsnd] at hq'
      exact ih q hq'
    | none =>
      obtain ⟨ps₁, p', ps₂, hps, hmiss, hp', hopen, hfst⟩ :=
        stopProjects_of_none name now t.Projects hsnd
      rw [hfst] at hq'
      rcases List.mem_append.mp hq' with hq'' | hq''
      · exact ih q (by rw [hps]; exact List.mem_append_left _ hq'')
      · rcases List.mem_cons.mp hq'' with rfl | hq'''
        · have hoo := ih p' (by rw [hps]; exact List.mem_append_right _ (List.mem_cons_self _ _))
          exact openOnlyLast_setLastEnd now p'.Logs hoo
        · exact ih q (by rw [hps]; exact List.mem_append_right _ (List.mem_cons_of_mem _ hq'''))
  | deleteStep t name ht ih =>
    intro q hq
    exact ih q (deleteProjects_subset name t.Projects q hq)

theorem at_most_one_open_witness :
    ((Project.mk "a" [⟨5, 0⟩] 0).Logs.filter fun e => e.End == 0).length ≤ 1 ∧
    (Project.mk "a" [⟨5, 0⟩] 0).Logs.dropLast.all (fun e => !(e.End == 0)) = true :=
  at_most_one_open (start (create ⟨[]⟩ "a") "a" 5).1 ⟨"a", [⟨5, 0⟩], 0⟩
    (Reachable.startStep _ "a" 5 (Reachable.createStep _ "a" Reachable.init))
    (by decide)

theorem stop_success_find (t : TrackerData) (name : String) (c : Int)
    (t' : TrackerData) (h : stop t name c = (t', none)) :
    ∃ p e p', findProject t name = some p ∧ p.Logs.getLast? = some e ∧ e.End = 0 ∧
      findProject t' name = some p' ∧
      p'.Logs = p.Logs.dropLast ++ [{ e with End := c }] ∧
      p'.TotalTime = p.TotalTime + (c - e.Start) := by
  have hsnd : (stopProjects name c t.Projects).2 = none := congrArg Prod.snd h
  have ht' : t' = TrackerData.mk (stopProjects name c t.Projects).1 :=
    (congrArg Prod.fst h).symm
  obtain ⟨ps₁, p, ps₂, hps, hmiss, hp, hopen, hfst⟩ :=
    stopProjects_of_none name c t.Projects hsnd
  obtain ⟨e, he, hz⟩ := (lastEntryOpen_iff p.Logs).mp hopen
  refine ⟨p, e,
    { p with
      Logs := setLastEnd c p.Logs,
      TotalTime := p.TotalTime + (c - (p.Logs.getLastD ⟨0, 0⟩).Start) },
    ?_, he, hz, ?_, ?_, ?_⟩
  · show t.Projects.find? (fun q => q.Name == name) = some p
    rw [hps]
    exact find?_shape name ps₁ ps₂ p hmiss hp
  · show t'.Projects.find? (fun q => q.Name == name) = some _
    rw [ht']
    show ((stopProjects name c t.Projects).1).find? (fun q => q.Name == name) = some _
    rw [hfst]
    exact find?_shape name ps₁ ps₂ _ hmiss hp
  · simpa using setLastEnd_eq c p.Logs e he
  · show p.TotalTime + (c - (p.Logs.getLastD ⟨0, 0⟩).Start)
      = p.TotalTime + (c - e.Start)
    rw [List.getLastD_eq_getLast?, he]
    rfl

/-- Claim C7 counterexample: a freshly-stopped project whose effective total
is not `totalTime` — the stop happened at the zero instant, so the entry is
still classified open and the report adds live time on top of `totalTime`. -/
theorem effective_total_fresh_stop_cex :
    stop ⟨[⟨"a", [⟨5, 0⟩], 0⟩]⟩ "a" 0 = (⟨[⟨"a", [⟨5, 0⟩], -5⟩]⟩, none) ∧
    findProject ⟨[⟨"a", [⟨5, 0⟩], -5⟩]⟩ "a" = some ⟨"a", [⟨5, 0⟩], -5⟩ ∧
    effectiveTotal ⟨"a", [⟨5, 0⟩], -5⟩ 7 ≠ (Project.mk "a" [⟨5, 0⟩] (-5)).TotalTime := by
  decide

/-- Claim C7 (amended): the effective total is `totalTime` when Idle and
`totalTime + (now - start_of_open_entry)` when Active, so it strictly grows
with `now` while Active; a freshly-stopped project's effective total is
exactly `totalTime` provided the stop instant was not the zero time value. -/
theorem effective_total_spec (p : Project) (now : Int) :
    (isActive p = false → effectiveTotal p now = p.TotalTime) ∧
    (isActive p = true →
      ∃ e, p.Logs.getLast? = some e ∧
        effectiveTotal p now = p.TotalTime + (now - e.Start)) ∧
    (∀ (t t' : TrackerData) (name : String) (c : Int) (p' : Project),
      stop t name c = (t', none) → c ≠ 0 → findProject t' name = some p' →
      effectiveTotal p' now = p'.TotalTime) ∧
    (∀ n₁ n₂ : Int, n₁ < n₂ → isActive p = true →
      effectiveTotal p n₁ < effectiveTotal p n₂) := by
  refine ⟨?_, ?_, ?_, ?_⟩
  · intro h
    simp only [isActive] at h
    simp [effectiveTotal, h]
  · intro h
    obtain ⟨e, he, hz⟩ := (lastEntryOpen_iff p.Logs).mp h
    refine ⟨e, he, ?_⟩
    simp only [isActive] at h
    simp [effectiveTotal, h, List.getLastD_eq_getLast?, he]
  · intro t t' name c q hstop hnz hfind
    obtain ⟨r, e, q', hfr, he, hz, hfq, hlogs, htt⟩ := stop_success_find t name c t' hstop
    have hqq : q' = q := Option.some_inj.mp (hfq.symm.trans hfind)
    subst hqq
    have hclosed : lastEntryOpen q'.Logs = false := by
      cases ha : lastEntryOpen q'.Logs with
      | false => rfl
      | true =>
        obtain ⟨e', he', hz'⟩ := (lastEntryOpen_iff q'.Logs).mp ha
        rw [hlogs, List.getLast?_concat] at he'
        cases Option.some_inj.mp he'
        exact absurd hz' (by simpa using hnz)
    simp [effectiveTotal, hclosed]
  · intro n₁ n₂ hlt h
    simp only [isActive] at h
    simp only [effectiveTotal, h, if_true]
    omega

theorem effective_total_spec_witness :
    effectiveTotal ⟨"a", [⟨2, 4⟩], 2⟩ 9 = (Project.mk "a" [⟨2, 4⟩] 2).TotalTime ∧
    effectiveTotal ⟨"b", [⟨3, 4⟩], 2⟩ 9 = (Project.mk "b" [⟨3, 4⟩] 2).TotalTime ∧
    effectiveTotal ⟨"c", [⟨3, 0⟩], 1⟩ 7 < effectiveTotal ⟨"c", [⟨3, 0⟩], 1⟩ 9 :=
  ⟨(effective_total_spec ⟨"a", [⟨2, 4⟩], 2⟩ 9).1 (by decide),
   (effective_total_spec ⟨"b", [⟨3, 4⟩], 2⟩ 9).2.2.1
     ⟨[⟨"b", [⟨3, 0⟩], 1⟩]⟩ ⟨[⟨"b", [⟨3, 4⟩], 2⟩]⟩ "b" 4 ⟨"b", [⟨3, 4⟩], 2⟩
     (by decide) (by decide) (by decide),
   (effective_total_spec ⟨"c", [⟨3, 0⟩], 1⟩ 9).2.2.2 7 9 (by decide) (by decide)⟩

theorem cast_sum_effective (ps : List Project) (now : Int) :
    (ps.map fun p => (effectiveTotal p now : ℚ)).sum
      = (((ps.map fun p => effectiveTotal p now).sum : Int) : ℚ) := by
  induction ps with
  | nil => simp
  | cons p ps ih =>
    simp only [List.map_cons, List.sum_cons, ih]
    push_cast
    ring

/-- Claim C8 counterexample: a snapshot produced by create/start/stop with a
backwards clock has a negative grand total; the report then prints 0 for the
project's percentage, while the claimed formula `effective/grand * 100`
evaluates to 100. -/
theorem report_percentage_neg_cex :
    stop (start (create ⟨[]⟩ "a") "a" 5).1 "a" 2 = (⟨[⟨"a", [⟨5, 2⟩], -3⟩]⟩, none) ∧
    grandTotal ⟨[⟨"a", [⟨5, 2⟩], -3⟩]⟩ 9 = -3 ∧
    percentage ⟨"a", [⟨5, 2⟩], -3⟩ ⟨[⟨"a", [⟨5, 2⟩], -3⟩]⟩ 9 = 0 ∧
    (effectiveTotal ⟨"a", [⟨5, 2⟩], -3⟩ 9 : ℚ) /
      (grandTotal ⟨[⟨"a", [⟨5, 2⟩], -3⟩]⟩ 9 : ℚ) * 100 = 100 := by
  have heff : effectiveTotal ⟨"a", [⟨5, 2⟩], -3⟩ 9 = -3 := by decide
  have hg : grandTotal ⟨[⟨"a", [⟨5, 2⟩], -3⟩]⟩ 9 = -3 := by decide
  refine ⟨by decide, hg, ?_, ?_⟩
  · rw [percentage, if_neg (by rw [hg]; decide)]
  · rw [heff, hg]
    norm_num

/-- Claim C8 (amended): in the report at instant `now`, a project's percentage
is `effective_total / grand_total * 100` when the grand total is strictly
positive and `0` otherwise — in particular when the grand total is `0`, but
also when it is negative (reachable via negative recorded durations); when the
grand total is strictly positive the exact percentages sum to exactly 100. -/
theorem report_percentages (t : TrackerData) (now : Int) :
    (grandTotal t now ≤ 0 → ∀ p, percentage p t now = 0) ∧
    (0 < grandTotal t now → ∀ p, percentage p t now =
      (effectiveTotal p now : ℚ) / (grandTotal t now : ℚ) * 100) ∧
    (0 < grandTotal t now →
      (t.Projects.map fun p => percentage p t now).sum = 100) := by
  refine ⟨?_, ?_, ?_⟩
  · intro hle p
    rw [percentage, if_neg (by omega)]
  · intro hpos p
    rw [percentage, if_pos hpos]
  · intro hpos
    have hne : (grandTotal t now : ℚ) ≠ 0 := by
      exact_mod_cast ne_of_gt (show (0 : Int) < grandTotal t now from hpos)
    have hform : ∀ p, percentage p t now =
        (effectiveTotal p now : ℚ) * (100 / (grandTotal t now : ℚ)) := by
      intro p
      rw [percentage, if_pos hpos]
      ring
    calc (t.Projects.map fun p => percentage p t now).sum
        = (t.Projects.map fun p =>
            (effectiveTotal p now : ℚ) * (100 / (grandTotal t now : ℚ))).sum := by
          simp only [hform]
      _ = (t.Projects.map fun p => (effectiveTotal p now : ℚ)).sum
            * (100 / (grandTotal t now : ℚ)) := List.sum_map_mul_right _ _ _
      _ = (grandTotal t now : ℚ) * (100 / (grandTotal t now : ℚ)) := by
          rw [cast_sum_effective]
          rfl
      _ = 100 := by
          field_simp

theorem report_percentages_witness :
    ((0 : Int) ≤ 0 → ∀ p, percentage p ⟨[]⟩ 0 = 0) ∧
    percentage ⟨"a", [], 25⟩ ⟨[⟨"a", [], 25⟩, ⟨"b", [], 75⟩]⟩ 0 =
      (effectiveTotal ⟨"a", [], 25⟩ 0 : ℚ) /
        (grandTotal ⟨[⟨"a", [], 25⟩, ⟨"b", [], 75⟩]⟩ 0 : ℚ) * 100 ∧
    ((⟨[⟨"a", [], 25⟩, ⟨"b", [], 75⟩]⟩ : TrackerData).Projects.map
      fun p => percentage p ⟨[⟨"a", [], 25⟩, ⟨"b", [], 75⟩]⟩ 0).sum = 100 :=
  ⟨fun h p => (report_percentages ⟨[]⟩ 0).1 (by decide) p,
   (report_percentages ⟨[⟨"a", [], 25⟩, ⟨"b", [], 75⟩]⟩ 0).2.1 (by decide)
     ⟨"a", [], 25⟩,
   (report_percentages ⟨[⟨"a", [], 25⟩, ⟨"b", [], 75⟩]⟩ 0).2.2 (by decide)⟩

end Ptrack
